import Mathlib

/-
Verification of the termkit character-grid rendering core.

This file gives a shallow embedding of the color model (src/termkit/style.py),
the cell compositing algebra and canvas (src/termkit/canvas.py), the palette
lookup (src/termkit/color.py) and the key-table scan of the input decoder
(src/termkit/term.py, src/termkit/escape.py), together with theorems settling
the specified properties of those operations.

Conventions used throughout:
- Python ints are modelled as Nat (all quantities involved are nonnegative);
  bitmasks are Nat with the kernel-supported bitwise operations.
- Python floats never escape the color functions: every float that the source
  produces is immediately rounded back to an int.  The rounding of the exact
  real value is characterised by integer inequalities (gamma 2.2 is the
  rational 11/5), so the whole color pipeline is embedded as exact integer
  arithmetic; see gamma_expansion below.
- Fallible code is embedded in Except PyErr, with one constructor per Python
  exception class that the modelled paths can raise.
-/

namespace Termkit

/-- Python exception classes that the embedded code paths can raise. -/
inductive PyErr where
  | typeError
  | valueError
  | keyError
  | nameError
  | attributeError
deriving DecidableEq

/-- Color from src/termkit/style.py (dataclass with fields red, green, blue,
holding 8-bit channels per the data model). -/
structure Color where
  red : ℕ
  green : ℕ
  blue : ℕ
deriving DecidableEq

/-- Embeds style.py gamma_expansion at the default gamma 2.2:
round((channel / 255) ** 2.2 * 255).  With gamma = 11/5 the exact value
x = (c/255)^(11/5) * 255 satisfies x >= n + 1/2 iff
32 * c^11 >= (2n+1)^5 * 255^6, so round(x) is the least n violating that
inequality; a tie x = n + 1/2 is impossible (the left side is even, the right
side odd), so round-half-to-even never has to break a tie.  The search bound
256 covers the 8-bit channel domain 0..255 of the data model. -/
def gamma_expansion (c : ℕ) : ℕ :=
  ((List.range 256).find? fun n => decide (32 * c ^ 11 < (2 * n + 1) ^ 5 * 255 ^ 6)).getD 255

/-- Embeds style.py gamma_compression at the default gamma 2.2, which the
source defines as gamma_expansion at exponent 1/2.2 = 5/11:
round((c / 255) ** (5/11) * 255).  The exact value x satisfies
x < n + 1/2 iff 2^11 * c^5 * 255^6 < (2n+1)^11 (ties impossible by parity),
so round(x) is the least such n. -/
def gamma_compression (c : ℕ) : ℕ :=
  ((List.range 256).find? fun n => decide (2 ^ 11 * c ^ 5 * 255 ^ 6 < (2 * n + 1) ^ 11)).getD 255

/-- Embeds the Python builtin round applied to s / 2 for an int s (the only
float rounding in Color.mix): the quotient is either exact or a half-integer,
and Python rounds half to even. -/
def round_half_even (s : ℕ) : ℕ :=
  if s % 2 = 0 then s / 2
  else if (s / 2) % 2 = 0 then s / 2 else s / 2 + 1

/-- Embeds style.py Color.mix at the default gamma: per channel, gamma-expand
both operands, average (average = expanded sum, then average /= 2 with the
builtin round), and gamma-compress the rounded average. -/
def Color.mix (self other : Color) : Color where
  red := gamma_compression (round_half_even (gamma_expansion self.red + gamma_expansion other.red))
  green := gamma_compression (round_half_even (gamma_expansion self.green + gamma_expansion other.green))
  blue := gamma_compression (round_half_even (gamma_expansion self.blue + gamma_expansion other.blue))

/-- Embeds style.py Color.difference at the default gamma: the sum over the
channels of the absolute difference of the gamma-expanded values (a Manhattan
distance in linear space; the result is a nonnegative integer). -/
def Color.difference (self other : Color) : ℕ :=
  ((gamma_expansion self.red : ℤ) - gamma_expansion other.red).natAbs
    + ((gamma_expansion self.green : ℤ) - gamma_expansion other.green).natAbs
    + ((gamma_expansion self.blue : ℤ) - gamma_expansion other.blue).natAbs

/-- Gamma round-trip of one channel: what Color.mix does to a channel when
both operands carry the same value. -/
def gamma_roundtrip (c : ℕ) : ℕ :=
  gamma_compression (gamma_expansion c)

/-- Embeds the Python builtin min(iterable, key=f) on a nonempty iterable
x :: xs: scan left to right keeping the current best, replacing it only when
the new element has a strictly smaller key, so the first element attaining
the minimal key wins. -/
def pymin (f : α → ℕ) (x : α) (xs : List α) : α :=
  xs.foldl (fun b y => if f y < f b then y else b) x

/-- Embeds the generator tuple((color, i) for i, color in enumerate(colors))
from style.py Color.closest_color: the list of (element, index) pairs with
indices starting at n. -/
def enumerate2 : ℕ → List α → List (α × ℕ)
  | _, [] => []
  | n, x :: xs => (x, n) :: enumerate2 (n + 1) xs

/-- Embeds style.py Color.closest_color at the default gamma: if self occurs
in the palette, return (self, 0) without scanning; otherwise return
min(sums, key) over the (color, index) pairs, which raises ValueError (here
.error .valueError) when the palette is empty. -/
def Color.closest_color (self : Color) (colors : List Color) : Except PyErr (Color × ℕ) :=
  if self ∈ colors then .ok (self, 0)
  else
    match enumerate2 0 colors with
    | [] => .error .valueError
    | p :: ps => .ok (pymin (fun pair => Color.difference self pair.1) p ps)

/-- Embeds Python x and not y on nonnegative ints (written x and the
complement of y in the source): clears in x every bit set in y. -/
def bitclear (x y : ℕ) : ℕ :=
  x ^^^ (x &&& y)

/-- Cell from src/termkit/canvas.py.  The dataclass declares char, fg, bg and
fx; the compositing methods additionally read and construct a fifth field fxt
(the attribute-transparency mask), which the frozen dataclass omits — at
runtime Cell.overlay therefore raises AttributeError.  The embedding carries
fxt as a field so that the arithmetic the method writes down can be stated;
the occurrence of other.ftx in the source is read as other.fxt (the only
reading under which the method denotes a function). -/
structure Cell where
  char : String
  fg : Option Color
  bg : Option Color
  fx : ℕ
  fxt : ℕ
deriving DecidableEq

/-- Embeds canvas.py Cell.overlay, where other is the layer drawn over self:
char, fg, bg are taken from other when non-sentinel (Python or), else from
self; fx takes the opaque bits of other and fills the transparent ones from
self; fxt is other.fxt with the bits cleared where self.fxt and other.fxt
are both set (as written -- the inline comment says it retains the bits that
remained transparent, but the mask computed is the complement of that). -/
def Cell.overlay (self other : Cell) : Cell where
  char := if other.char = "" then self.char else other.char
  fg := match other.fg with
    | some c => some c
    | none => self.fg
  bg := match other.bg with
    | some c => some c
    | none => self.bg
  fx := bitclear other.fx other.fxt ||| (self.fx &&& other.fxt)
  fxt := bitclear other.fxt (self.fxt &&& other.fxt)

/-- Embeds canvas.py Cell.underlay: return other.overlay(self). -/
def Cell.underlay (self other : Cell) : Cell :=
  Cell.overlay other self

/-- Embeds canvas.py Cell.__add__ on two Cells under the total reading of
the compositing arithmetic used above: the body evaluates
self.underlay(other) but has no return statement, so when the discarded
call returns at all, __add__ returns None (modelled as none). -/
def Cell.add (self other : Cell) : Option Cell :=
  let _discarded := Cell.underlay self other
  none

/-- Embeds canvas.py Cell.overlay as it executes at runtime: the char, fg
and bg expressions evaluate without fault, but line 90 then reads
other.fxt, an attribute the frozen dataclass does not declare (it lists
only char, fg, bg and fx; the fxt component of the embedding above has no
runtime counterpart), so every call raises AttributeError before any Cell
is constructed. -/
def Cell.overlay_run (_self _other : Cell) : Except PyErr Cell :=
  .error .attributeError

/-- Embeds canvas.py Cell.underlay as it executes at runtime: return
other.overlay(self), which propagates the AttributeError of overlay. -/
def Cell.underlay_run (self other : Cell) : Except PyErr Cell :=
  Cell.overlay_run other self

/-- Embeds canvas.py Cell.__add__ on two Cells as it executes at runtime:
the body evaluates self.underlay(other), whose AttributeError propagates
out of __add__, so the None fall-through (the missing return) is never
reached. -/
def Cell.add_run (self other : Cell) : Except PyErr (Option Cell) := do
  let _discarded ← Cell.underlay_run self other
  pure none

/-- One element of the Python list Canvas.canvas from src/termkit/canvas.py.
The class treats the list as a list of rows (lists of Cells), but the grow
path of resize appends bare Cells to it, so the embedding keeps the Python
heterogeneity explicit. -/
inductive CanvasEntry where
  | row (cells : List Cell)
  | cell (c : Cell)
deriving DecidableEq

/-- Embeds the Canvas.rows property: len(self.canvas). -/
def canvas_rows (canvas : List CanvasEntry) : ℕ :=
  canvas.length

/-- Embeds the Canvas.cols property: 0 when there are no rows, else
len(self.canvas[0]); when the first element is a bare Cell the len call
raises TypeError, since Cell defines no length. -/
def canvas_cols (canvas : List CanvasEntry) : Except PyErr ℕ :=
  match canvas with
  | [] => .ok 0
  | .row cells :: _ => .ok cells.length
  | .cell _ :: _ => .error .typeError

/-- Embeds the statement del l[diff:] for a negative int diff: removes the
elements from index len(l) + diff (clamped at 0) through the end. -/
def del_from (l : List α) (diff : ℤ) : List α :=
  l.take ((l.length : ℤ) + diff).toNat

/-- Embeds the expression cols or self.cols from the grow-rows branch of
resize: Python or yields cols when it is truthy (given and nonzero), else
the cols property. -/
def cols_or (cols : Option ℤ) (canvas : List CanvasEntry) : Except PyErr ℤ :=
  match cols with
  | some c => if c ≠ 0 then .ok c else (canvas_cols canvas).map (fun n => (n : ℤ))
  | none => (canvas_cols canvas).map (fun n => (n : ℤ))

/-- Embeds the loop for row in self.canvas: row.extend([fill] * diff).  A
bare Cell element has no extend attribute, raising AttributeError. -/
def extend_rows (canvas : List CanvasEntry) (fill : Cell) (diff : ℕ) :
    Except PyErr (List CanvasEntry) :=
  canvas.mapM fun e =>
    match e with
    | .row cells => .ok (.row (cells ++ List.replicate diff fill))
    | .cell _ => .error .attributeError

/-- Embeds canvas.py Canvas.resize.  The grow-rows branch is the source text
self.canvas.extend([fill] * (cols or self.cols)), which appends that many
bare fill Cells (not rows) directly to the canvas list; the shrink-cols
branch is del row[diff:] outside any loop, where row is an unbound local in
that branch, raising NameError. -/
def Canvas.resize (canvas : List CanvasEntry) (rows cols : Option ℤ) (fill : Cell) :
    Except PyErr (List CanvasEntry) := do
  let canvas1 ←
    match rows with
    | none => pure canvas
    | some r =>
      let diff : ℤ := r - canvas_rows canvas
      if diff > 0 then do
        let n ← cols_or cols canvas
        pure (canvas ++ List.replicate n.toNat (.cell fill))
      else if diff < 0 then
        pure (del_from canvas diff)
      else
        pure canvas
  match cols with
  | none => pure canvas1
  | some c => do
    let cur ← canvas_cols canvas1
    let diff : ℤ := c - cur
    if diff > 0 then
      extend_rows canvas1 fill diff.toNat
    else if diff < 0 then
      .error .nameError
    else
      pure canvas1

/-- Embeds one hexadecimal digit as the builtin int with base 16 reads it
(0-9, a-f, A-F), via the character code. -/
def hex_digit (c : Char) : Option ℕ :=
  if 48 ≤ c.toNat ∧ c.toNat ≤ 57 then some (c.toNat - 48)
  else if 97 ≤ c.toNat ∧ c.toNat ≤ 102 then some (c.toNat - 87)
  else if 65 ≤ c.toNat ∧ c.toNat ≤ 70 then some (c.toNat - 55)
  else none

/-- Embeds the builtin int(s, base=16) on the argument shapes the palette
lookup passes it: a nonempty string of hex digits parses as a base-16
numeral; an empty string or one with a non-hex character raises ValueError.
(Python also accepts whitespace, sign, 0x and underscore forms; none of the
inputs considered below contain them.) -/
def int_base16 (s : List Char) : Except PyErr ℕ :=
  match s.mapM hex_digit with
  | some (d :: ds) => .ok ((d :: ds).foldl (fun a d2 => 16 * a + d2) 0)
  | _ => .error .valueError

/-- Embeds color.py ColorPalette.__getitem__ for a str key whose first
character is the hash mark (the name-map branch taken by other strings is
not modelled): evaluate int(key.lstrip(hash), 16) — lstrip drops every
leading hash — then, if the key has exactly 7 characters, build the Color
from the three byte fields of the parsed number, else fall through to
raise KeyError. -/
def palette_get_hash (key : String) : Except PyErr Color :=
  match int_base16 (key.toList.dropWhile (· = '#')) with
  | .error e => .error e
  | .ok rgb =>
    if key.length = 7 then
      .ok (Color.mk (rgb >>> 16 &&& 255) (rgb >>> 8 &&& 255) (rgb &&& 255))
    else
      .error .keyError

/-- Key from src/termkit/escape.py: a key name, the byte sequence the
terminal sends for it, and a modifier bitmask (SHIFT = 1, META = 2,
CTRL = 4). -/
structure KeyDef where
  name : String
  value : String
  modifiers : ℕ
deriving DecidableEq

/-- The static key table escape.KEYS, transcribed entry for entry; each
modifier mask is the evaluated bit-or of the source (including the repeated
CTRL in the 1;8 rows, which therefore evaluate to 5, not 7). -/
def KEYS : List KeyDef := [
  KeyDef.mk "paste_begin" "\x1b[200~" 0,
  KeyDef.mk "paste_end" "\x1b[201~" 0,
  KeyDef.mk "up" "\x1b[A" 0,
  KeyDef.mk "up" "\x1bOA" 0,
  KeyDef.mk "up" "\x1b[1;2A" 1,
  KeyDef.mk "up" "\x1b[1;3A" 2,
  KeyDef.mk "up" "\x1b[1;5A" 4,
  KeyDef.mk "up" "\x1b[1;4A" 5,
  KeyDef.mk "up" "\x1b[1;6A" 5,
  KeyDef.mk "up" "\x1b[1;7A" 6,
  KeyDef.mk "up" "\x1b[1;8A" 5,
  KeyDef.mk "down" "\x1b[B" 0,
  KeyDef.mk "down" "\x1bOB" 0,
  KeyDef.mk "down" "\x1b[1;2B" 1,
  KeyDef.mk "down" "\x1b[1;3B" 2,
  KeyDef.mk "down" "\x1b[1;5B" 4,
  KeyDef.mk "down" "\x1b[1;4B" 5,
  KeyDef.mk "down" "\x1b[1;6B" 5,
  KeyDef.mk "down" "\x1b[1;7B" 6,
  KeyDef.mk "down" "\x1b[1;8B" 5,
  KeyDef.mk "right" "\x1b[C" 0,
  KeyDef.mk "right" "\x1bOC" 0,
  KeyDef.mk "right" "\x1b[1;2C" 1,
  KeyDef.mk "right" "\x1b[1;3C" 2,
  KeyDef.mk "right" "\x1b[1;5C" 4,
  KeyDef.mk "right" "\x1b[1;4C" 5,
  KeyDef.mk "right" "\x1b[1;6C" 5,
  KeyDef.mk "right" "\x1b[1;7C" 6,
  KeyDef.mk "right" "\x1b[1;8C" 5,
  KeyDef.mk "left" "\x1b[D" 0,
  KeyDef.mk "left" "\x1bOD" 0,
  KeyDef.mk "left" "\x1b[1;2D" 1,
  KeyDef.mk "left" "\x1b[1;3D" 2,
  KeyDef.mk "left" "\x1b[1;5D" 4,
  KeyDef.mk "left" "\x1b[1;4D" 5,
  KeyDef.mk "left" "\x1b[1;6D" 5,
  KeyDef.mk "left" "\x1b[1;7D" 6,
  KeyDef.mk "left" "\x1b[1;8D" 5,
  KeyDef.mk "return" "\x0d" 0,
  KeyDef.mk "return" "\x1b\x0d" 2,
  KeyDef.mk "return" "\x0a" 4,
  KeyDef.mk "backspace" "\x7f" 0,
  KeyDef.mk "backspace" "\x1b\x7f" 2,
  KeyDef.mk "backspace" "\x08" 4,
  KeyDef.mk "backspace" "\x1b\x1b" 6,
  KeyDef.mk "delete" "\x1b[3~" 0,
  KeyDef.mk "delete" "\x1b[3;2~" 1,
  KeyDef.mk "delete" "\x1b[3;3~" 2,
  KeyDef.mk "delete" "\x1b[3;5~" 4,
  KeyDef.mk "delete" "\x1b[3;4~" 5,
  KeyDef.mk "delete" "\x1b[3;6~" 5,
  KeyDef.mk "delete" "\x1b[3;7~" 6,
  KeyDef.mk "delete" "\x1b[3;8~" 5,
  KeyDef.mk "tab" "\x09" 0,
  KeyDef.mk "tab" "\x1b[Z" 1,
  KeyDef.mk "tab" "\x1b\x09" 2,
  KeyDef.mk "tab" "\x1b\x1b[Z" 5,
  KeyDef.mk "escape" "\x1b" 0,
  KeyDef.mk "insert" "\x1b[2~" 0,
  KeyDef.mk "insert" "\x1b[2;5~" 4,
  KeyDef.mk "home" "\x1b[H" 0,
  KeyDef.mk "home" "\x1bOH" 0,
  KeyDef.mk "home" "\x1b[1;5H" 4,
  KeyDef.mk "end" "\x1b[F" 0,
  KeyDef.mk "end" "\x1bOF" 0,
  KeyDef.mk "end" "\x1b[1;5F" 4,
  KeyDef.mk "pg_last" "\x1b[5~" 0,
  KeyDef.mk "pg_last" "\x1b[5;5~" 4,
  KeyDef.mk "pg_next" "\x1b[6~" 0,
  KeyDef.mk "pg_next" "\x1b[6;5~" 4,
  KeyDef.mk "f1" "\x1bOP" 0,
  KeyDef.mk "f2" "\x1bOQ" 0,
  KeyDef.mk "f3" "\x1bOR" 0,
  KeyDef.mk "f4" "\x1bOS" 0,
  KeyDef.mk "f5" "\x1b[15~" 0,
  KeyDef.mk "f6" "\x1b[17~" 0,
  KeyDef.mk "f7" "\x1b[18~" 0,
  KeyDef.mk "f8" "\x1b[19~" 0,
  KeyDef.mk "f9" "\x1b[20~" 0,
  KeyDef.mk "f10" "\x1b[21~" 0,
  KeyDef.mk "f11" "\x1b[23~" 0,
  KeyDef.mk "f12" "\x1b[24~" 0
]

/-- Stable insertion of a key into a list sorted by ascending byte length:
strictly shorter entries stay in front, and on equal lengths the inserted
(earlier) entry goes first, matching the stability of the builtin sorted. -/
def insert_by_len (k : KeyDef) : List KeyDef → List KeyDef
  | [] => [k]
  | x :: xs =>
    if k.value.length ≤ x.value.length then k :: x :: xs
    else x :: insert_by_len k xs

/-- Stable insertion sort by ascending byte length. -/
def sort_by_len : List KeyDef → List KeyDef
  | [] => []
  | x :: xs => insert_by_len x (sort_by_len xs)

/-- Embeds the table ordering built inside term.py parse_keys:
sorted(escape.KEYS, key=len), an ascending sort by length, recomputed on
every call rather than once at initialization.  At runtime the line raises
TypeError because Key defines no length; len(key) is read as the length of
the key's byte sequence, the only reading under which the line denotes. -/
def parse_keys_sorted : List KeyDef :=
  sort_by_len KEYS

/-- Embeds one full pass of the matching loop in term.py parse_keys: visit
the sorted table in order and collect every entry whose byte sequence begins
the buffer (raw.startswith(key), with the Key read as its sequence); the
loop has no break, never consumes the buffer, and the function has no return
statement, so one pass is the entire observable matching behaviour. -/
def parse_keys_scan (raw : String) : List KeyDef :=
  parse_keys_sorted.filter fun k => k.value.toList.isPrefixOf raw.toList

/-- C3: mixing red (255,0,0) with blue (0,0,255) at the default gamma 2.2
yields exactly (186, 0, 186), and not the naive average (128, 0, 128). -/
theorem mix_red_blue_gamma :
    Color.mix (Color.mk 255 0 0) (Color.mk 0 0 255) = Color.mk 186 0 186 ∧
      Color.mix (Color.mk 255 0 0) (Color.mk 0 0 255) ≠ Color.mk 128 0 128 := by
  constructor
  · rfl
  · decide

/-- C4 counterexample: mixing the color (1,0,0) with itself yields (0,0,0),
not (1,0,0), because gamma expansion rounds channel 1 down to 0; so
mix(a, a) == a fails at a = (1,0,0). -/
theorem mix_self_not_identity :
    Color.mix (Color.mk 1 0 0) (Color.mk 1 0 0) = Color.mk 0 0 0 ∧
      Color.mix (Color.mk 1 0 0) (Color.mk 1 0 0) ≠ Color.mk 1 0 0 := by
  constructor
  · rfl
  · decide

/-- Averaging a value with itself is exact, so the builtin round returns it
unchanged. -/
theorem round_half_even_double (x : ℕ) : round_half_even (x + x) = x := by
  have h : (x + x) % 2 = 0 := by omega
  rw [round_half_even, if_pos h]
  omega

/-- C4 amended: mixing a Color with itself (at the default gamma 2.2) returns
the color with every channel replaced by its gamma round-trip
gamma_compression(gamma_expansion(channel)); this equals the original color
only at channels fixed by that round-trip (e.g. 0 and 255, but not 1). -/
theorem mix_self_roundtrip (a : Color) :
    Color.mix a a =
      Color.mk (gamma_roundtrip a.red) (gamma_roundtrip a.green) (gamma_roundtrip a.blue) := by
  simp [Color.mix, gamma_roundtrip, round_half_even_double]

/-- C1: with top = bottom = the cell whose attribute-transparency mask has
bit 0 set, the overlay of top over bottom clears the result's transparency
bit 0, although both layers have it set; the claimed rule (the result
inherits the bottom transparency bit whenever the top bit is set) requires
it to remain set.  The code computes top.fxt minus bottom.fxt instead of
top.fxt intersected with bottom.fxt. -/
theorem overlay_transparency_bit_diverges :
    (Cell.overlay (Cell.mk "" none none 0 1) (Cell.mk "" none none 0 1)).fxt.testBit 0 = false ∧
      (Cell.mk "" none none 0 1).fxt.testBit 0 = true := by
  decide

/-- C2: the overlay written in the source is not associative: with
x = opaque empty cell, y = cell with attribute bit 0 set but marked
transparent, z = cell with attribute bit 0 clear and marked transparent
(z layered over y layered over x), the two associations disagree on
attribute bit 0. -/
theorem overlay_not_associative :
    Cell.overlay (Cell.overlay (Cell.mk "" none none 0 0) (Cell.mk "" none none 1 1))
        (Cell.mk "" none none 0 1) ≠
      Cell.overlay (Cell.mk "" none none 0 0)
        (Cell.overlay (Cell.mk "" none none 1 1) (Cell.mk "" none none 0 1)) := by
  decide

/-- C10 counterexample: the + operator applied to two empty Cells does not
evaluate to None: the invoked underlay raises AttributeError on the missing
fxt field, and with no handler in __add__ the exception propagates to the
caller instead of any return value. -/
theorem cell_add_raises :
    Cell.add_run (Cell.mk "" none none 0 0) (Cell.mk "" none none 0 0) =
        .error .attributeError ∧
      Cell.add_run (Cell.mk "" none none 0 0) (Cell.mk "" none none 0 0) ≠ .ok none := by
  exact ⟨rfl, fun h => nomatch h⟩

/-- C10 amended: for every pair of Cells, the + operator never yields a
composited Cell, but not by returning None: at runtime the invoked underlay
raises AttributeError, which propagates out of Cell.__add__; and under the
total reading of the compositing arithmetic (a Cell carrying the fxt field,
ftx read as fxt), the body discards underlay's result and returns None,
having no return statement. -/
theorem cell_add_discards_result (a b : Cell) :
    Cell.add_run a b = .error .attributeError ∧ Cell.add a b = none :=
  ⟨rfl, rfl⟩

/-- C6: growing the row count does not append fill-filled rows: resizing a
1-row, 1-column canvas to 2 rows appends the bare fill Cell as a canvas
element, which is not a row holding the fill Cell, so the canvas stops being
a list of rows. -/
theorem resize_grow_rows_appends_cells :
    Canvas.resize [CanvasEntry.row [Cell.mk "x" none none 0 0]] (some 2) none
        (Cell.mk "" none none 0 0) =
      .ok [CanvasEntry.row [Cell.mk "x" none none 0 0],
        CanvasEntry.cell (Cell.mk "" none none 0 0)] ∧
      CanvasEntry.cell (Cell.mk "" none none 0 0) ≠
        CanvasEntry.row [Cell.mk "" none none 0 0] := by
  exact ⟨rfl, by decide⟩

/-- C7: resizing to a negative row count raises no invalid-argument error
and mutates the canvas: resize(rows = -1) on a 1-row, 1-column canvas
executes del self.canvas[diff:], silently empties the grid, and returns
normally. -/
theorem resize_negative_rows_silently_truncates :
    Canvas.resize [CanvasEntry.row [Cell.mk "x" none none 0 0]] (some (-1)) none
        (Cell.mk "" none none 0 0) =
      .ok [] := by
  rfl

/-- C8: in the hex branch of the palette lookup, a 7-character key holding a
non-hex digit raises ValueError out of the int call — not the KeyError
lookup failure the claim describes — while a wrong-length key of valid hex
digits falls through to KeyError and a well-formed #rrggbb key yields the
Color whose channels are the first, middle and last digit pairs. -/
theorem palette_hex_lookup :
    palette_get_hash "#zzzzzz" = .error .valueError ∧
      palette_get_hash "#fff" = .error .keyError ∧
      palette_get_hash "#ffaa00" = .ok (Color.mk 255 170 0) := by
  exact ⟨rfl, rfl, rfl⟩

/-- Unfolding pymin over a cons cell: the head is replaced by the new
element exactly when the new element's key is strictly smaller. -/
theorem pymin_cons (f : α → ℕ) (x y : α) (ys : List α) :
    pymin f x (y :: ys) = pymin f (if f y < f x then y else x) ys :=
  rfl

/-- The scan result of pymin is one of the scanned elements. -/
theorem pymin_mem (f : α → ℕ) (x : α) (xs : List α) : pymin f x xs ∈ x :: xs := by
  induction xs generalizing x with
  | nil => simp [pymin]
  | cons y ys ih =>
    rw [pymin_cons]
    by_cases hc : f y < f x
    · rw [if_pos hc]
      have h := ih y
      rw [List.mem_cons] at h
      rcases h with h | h
      · rw [h]
        simp
      · simp [h]
    · rw [if_neg hc]
      have h := ih x
      rw [List.mem_cons] at h
      rcases h with h | h
      · rw [h]
        simp
      · simp [h]

/-- The scan result of pymin has a key no larger than any scanned element. -/
theorem pymin_le (f : α → ℕ) (x : α) (xs : List α) :
    ∀ y ∈ x :: xs, f (pymin f x xs) ≤ f y := by
  induction xs generalizing x with
  | nil =>
    intro z hz
    rw [List.mem_singleton] at hz
    subst hz
    exact Nat.le_refl _
  | cons y ys ih =>
    intro z hz
    rw [pymin_cons]
    rw [List.mem_cons, List.mem_cons] at hz
    by_cases hc : f y < f x
    · rw [if_pos hc]
      have hhead := ih y y (List.mem_cons_self y ys)
      rcases hz with rfl | rfl | hz
      · exact Nat.le_trans hhead (Nat.le_of_lt hc)
      · exact hhead
      · exact ih y z (List.mem_cons_of_mem y hz)
    · rw [if_neg hc]
      have hhead := ih x x (List.mem_cons_self x ys)
      rcases hz with rfl | rfl | hz
      · exact hhead
      · exact Nat.le_trans hhead (Nat.le_of_not_lt hc)
      · exact ih x z (List.mem_cons_of_mem x hz)

/-- The first scanned element whose key is no larger than the scan minimum
is the scan result itself: the builtin min keeps the earliest element
attaining the minimal key. -/
theorem pymin_find (f : α → ℕ) (x : α) (xs : List α) :
    (x :: xs).find? (fun y => decide (f y ≤ f (pymin f x xs))) = some (pymin f x xs) := by
  induction xs generalizing x with
  | nil => simp [pymin]
  | cons y ys ih =>
    rw [pymin_cons]
    by_cases hc : f y < f x
    · rw [if_pos hc]
      have hm_y : f (pymin f y ys) ≤ f y := pymin_le f y ys y (List.mem_cons_self y ys)
      have hx : ¬ f x ≤ f (pymin f y ys) := by omega
      rw [List.find?_cons_of_neg _ (by simp [hx])]
      exact ih y
    · rw [if_neg hc]
      have hxy : f x ≤ f y := Nat.le_of_not_lt hc
      by_cases hxm : f x ≤ f (pymin f x ys)
      · have hfind := ih x
        rw [List.find?_cons_of_pos _ (by simp [hxm])] at hfind
        have hx_eq : x = pymin f x ys := Option.some.inj hfind
        rw [List.find?_cons_of_pos _ (by simp [hxm])]
        rw [← hx_eq]
      · have hmx : f (pymin f x ys) < f x := Nat.lt_of_not_le hxm
        have hy : ¬ f y ≤ f (pymin f x ys) := by omega
        have hfind := ih x
        rw [List.find?_cons_of_neg _ (by simp [hxm])] at hfind
        rw [List.find?_cons_of_neg _ (by simp [hxm]), List.find?_cons_of_neg _ (by simp [hy])]
        exact hfind

/-- The first components of the enumerated pairs are the original list. -/
theorem enumerate2_map_fst (l : List α) : ∀ n, (enumerate2 n l).map Prod.fst = l := by
  induction l with
  | nil => intro n; rfl
  | cons x xs ih =>
    intro n
    rw [enumerate2, List.map_cons, ih]

/-- Searching the enumerated pairs with a predicate on the first component
finds the pair of the first list element satisfying the predicate. -/
theorem enumerate2_find (p : α → Bool) (l : List α) :
    ∀ n, ((enumerate2 n l).find? (fun pair => p pair.1)).map Prod.fst = l.find? p := by
  induction l with
  | nil => intro n; rfl
  | cons x xs ih =>
    intro n
    cases hc : p x
    · rw [enumerate2, List.find?_cons_of_neg _ (by simp [hc]),
        List.find?_cons_of_neg _ (by simp [hc])]
      exact ih (n + 1)
    · rw [enumerate2, List.find?_cons_of_pos _ (by simp [hc]), List.find?_cons_of_pos _ hc]
      rfl

/-- C5: the nearest-palette search on a nonempty palette: a target literally
present in the palette is returned immediately paired with distance 0;
otherwise the search succeeds with a palette entry whose gamma-expanded
Manhattan difference to the target is minimal over the palette, and among
the entries attaining the minimum it is the first in palette order (it is
the first entry whose difference is at most the returned entry's). -/
theorem closest_color_correct (c : Color) (palette : List Color) (hne : palette ≠ []) :
    (c ∈ palette → Color.closest_color c palette = .ok (c, 0)) ∧
    (c ∉ palette →
      ∃ p i, Color.closest_color c palette = .ok (p, i) ∧ p ∈ palette ∧
        (∀ q ∈ palette, Color.difference c p ≤ Color.difference c q) ∧
        palette.find? (fun q => decide (Color.difference c q ≤ Color.difference c p)) =
          some p) := by
  constructor
  · intro h
    simp [Color.closest_color, h]
  · intro h
    obtain ⟨x, xs, rfl⟩ := List.exists_cons_of_ne_nil hne
    have henum : enumerate2 0 (x :: xs) = (x, 0) :: enumerate2 1 xs := rfl
    refine ⟨(pymin (fun pair => Color.difference c pair.1) (x, 0) (enumerate2 1 xs)).1,
      (pymin (fun pair => Color.difference c pair.1) (x, 0) (enumerate2 1 xs)).2,
      ?_, ?_, ?_, ?_⟩
    · unfold Color.closest_color
      rw [if_neg h, henum]
    · have hmem := pymin_mem (fun pair => Color.difference c pair.1) (x, 0) (enumerate2 1 xs)
      rw [← henum] at hmem
      have := List.mem_map_of_mem Prod.fst hmem
      rw [enumerate2_map_fst] at this
      exact this
    · intro q hq
      have hq2 : q ∈ (enumerate2 0 (x :: xs)).map Prod.fst := by
        rw [enumerate2_map_fst]
        exact hq
      obtain ⟨pair, hpair_mem, hpair_eq⟩ := List.mem_map.1 hq2
      rw [henum] at hpair_mem
      have hle := pymin_le (fun pair => Color.difference c pair.1) (x, 0) (enumerate2 1 xs)
        pair hpair_mem
      simpa [hpair_eq] using hle
    · have hfind := pymin_find (fun pair => Color.difference c pair.1) (x, 0) (enumerate2 1 xs)
      rw [← henum] at hfind
      have hmap := congrArg (Option.map Prod.fst) hfind
      rw [enumerate2_find
        (fun q => decide (Color.difference c q ≤
          Color.difference c (pymin (fun pair => Color.difference c pair.1) (x, 0)
            (enumerate2 1 xs)).1))] at hmap
      exact hmap

/-- C5 witness: instantiating the nearest-palette theorem at the target
(255,0,0) and the two-entry palette of (0,0,0) and (250,250,250). -/
theorem closest_color_correct_witness :
    ([Color.mk 0 0 0, Color.mk 250 250 250] : List Color) ≠ [] ∧
    ((Color.mk 255 0 0 ∈ [Color.mk 0 0 0, Color.mk 250 250 250] →
      Color.closest_color (Color.mk 255 0 0) [Color.mk 0 0 0, Color.mk 250 250 250] =
        .ok (Color.mk 255 0 0, 0)) ∧
    (Color.mk 255 0 0 ∉ [Color.mk 0 0 0, Color.mk 250 250 250] →
      ∃ p i, Color.closest_color (Color.mk 255 0 0) [Color.mk 0 0 0, Color.mk 250 250 250] =
          .ok (p, i) ∧
        p ∈ [Color.mk 0 0 0, Color.mk 250 250 250] ∧
        (∀ q ∈ [Color.mk 0 0 0, Color.mk 250 250 250],
          Color.difference (Color.mk 255 0 0) p ≤ Color.difference (Color.mk 255 0 0) q) ∧
        [Color.mk 0 0 0, Color.mk 250 250 250].find?
            (fun q => decide (Color.difference (Color.mk 255 0 0) q ≤
              Color.difference (Color.mk 255 0 0) p)) =
          some p)) :=
  ⟨by decide, closest_color_correct (Color.mk 255 0 0) [Color.mk 0 0 0, Color.mk 250 250 250]
    (by decide)⟩

/-- C9: scanning the buffer ESC [ A against the key table ordered as the
code orders it yields the 1-byte escape entry first and the 3-byte up entry
second: the per-call ascending sort makes the shortest matching table entry
the first hit, the reverse of the claimed longest-match rule, and the loop
collects every match instead of emitting the longest one. -/
theorem parse_keys_shortest_first :
    parse_keys_scan "\x1b[A" =
      [KeyDef.mk "escape" "\x1b" 0, KeyDef.mk "up" "\x1b[A" 0] := by
  rfl

end Termkit
